import Mathlib

/-!
Verification of the `orchard-postfiat` wallet state manager.

This file shallowly embeds the Rust sources ( `wallet_state.rs`,
`note_manager.rs` ) in Lean 4 and proves / refutes the frozen claims about
them.

Modelling conventions:
* 32-byte values (commitments, nullifiers, transaction hashes, serialized
  viewing keys) are modelled as `Nat`.  They are only ever compared for
  equality and used as ordered map keys; `Nat`'s order is order-isomorphic to
  the lexicographic order on fixed-length byte arrays, which is the order
  `BTreeMap<[u8; 32], _>` uses.
* `MerkleHashOrchard` values are modelled by the free hash algebra `HashV`:
  leaves, per-level empty-subtree hashes, and a binary combine node.  The real
  combine function is an external cryptographic primitive (spec section 6);
  the free algebra keeps every structural property of the tree computations
  while abstracting the hash.  `MerkleHashOrchard::from_bytes` canonicity
  checking is external crypto; `Bytes32` ranges over canonical encodings, so
  the check always succeeds in the model.  Likewise `Anchor::from_bytes
  (root.to_bytes())` is a round trip and is the identity here.
* `BTreeMap` is modelled as an association list kept sorted by key
  (`mapInsert` / `mapGet`), `HashMap` as an insertion-ordered association list
  (`hmInsert`), and `HashSet` as a duplicate-free list (`hsInsert`).
* Rust methods taking `&mut self` and returning `Result` are embedded as
  functions returning `State × Except WErr α`: an `Except.error` result still
  carries the (partially) mutated state, exactly as a Rust early `?` return
  leaves `&mut self` mutated.
* `u64` / `u32` / `usize` are `Nat` with explicit overflow checks where the
  source has them (`checked_add`, `try_into`, capacity tests); `usize`
  subtraction (which panics on underflow in debug builds) is modelled as an
  `Option Nat` that is `none` on underflow.
* Error strings in the source are mapped one-to-one onto the `WErr`
  constructors, documented at each constructor.
-/

namespace PostfiatOrchard

/-- A 32-byte value (commitment `cmx`, nullifier, transaction hash, serialized
incoming viewing key).  See the modelling conventions above. -/
abbrev Bytes32 := Nat

/-- An `orchard::keys::IncomingViewingKey`.  The wallet code only compares
keys for equality, so an opaque value suffices. -/
abbrev Ivk := Nat

/-- Identifier for a note: `(tx_hash, action_idx)` (`wallet_state.rs` line 61,
`type NoteId = ([u8; 32], u32)`). -/
abbrev NoteId := Bytes32 × Nat

/-- An `orchard::note::Note`.  The wallet code only reads
`note.value().inner()` (the `u64` amount), so the model keeps just that. -/
structure Note where
  value : Nat
deriving DecidableEq, Repr

/-- Strict lexicographic order on `NoteId`, the `Ord` instance `BTreeMap`
uses for `([u8; 32], u32)` keys. -/
def idLtB (a b : NoteId) : Bool :=
  decide (a.1 < b.1) || (decide (a.1 = b.1) && decide (a.2 < b.2))

/-- Strict order on `Nat`-modelled 32-byte keys, the `Ord` instance
`BTreeMap` uses for `[u8; 32]` keys. -/
def natLtB (a b : Nat) : Bool := decide (a < b)

/-- `BTreeMap` lookup (`get`): association-list lookup by key equality. -/
def mapGet {α β : Type} [DecidableEq α] (k : α) : List (α × β) → Option β
  | [] => none
  | e :: rest => if k = e.1 then some e.2 else mapGet k rest

/-- `BTreeMap` insert: inserts into a key-sorted association list, replacing
the entry if the key is already present. -/
def mapInsert {α β : Type} [DecidableEq α] (lt : α → α → Bool) (k : α) (v : β) :
    List (α × β) → List (α × β)
  | [] => [(k, v)]
  | e :: rest =>
    if lt k e.1 then (k, v) :: e :: rest
    else if k = e.1 then (k, v) :: rest
    else e :: mapInsert lt k v rest

/-- `HashMap` insert: replaces in place if present, otherwise appends. -/
def hmInsert {α β : Type} [DecidableEq α] (k : α) (v : β) :
    List (α × β) → List (α × β)
  | [] => [(k, v)]
  | e :: rest => if e.1 = k then (k, v) :: rest else e :: hmInsert k v rest

/-- `HashSet` insert: duplicate-free list, no-op when already a member. -/
def hsInsert {α : Type} [DecidableEq α] (x : α) (s : List α) : List α :=
  if x ∈ s then s else s ++ [x]

/-- A value of the Merkle hash algebra: the model of `MerkleHashOrchard`.
`leaf b` is `from_bytes(cmx)`, `empty lvl` is the empty-subtree hash at level
`lvl` (`empty_leaf` is `empty 0`), `node l r` is the level combine.  The real
combine is an external cryptographic primitive; the free algebra abstracts
it. -/
inductive HashV where
  | leaf (b : Bytes32)
  | empty (lvl : Nat)
  | node (l r : HashV)
deriving DecidableEq, Repr

/-- An `orchard::Anchor` (a Merkle root).  `Anchor::from_bytes(root.to_bytes())`
is the identity in the model. -/
abbrev Anchor := HashV

/-- Combine one tree level: pair up the nodes, padding a trailing odd node
with the empty-subtree hash of that level. -/
def pairUp (lvl : Nat) : List HashV → List HashV
  | [] => []
  | [x] => [HashV.node x (HashV.empty lvl)]
  | x :: y :: rest => HashV.node x y :: pairUp lvl rest

/-- Iterate `pairUp` for `d` levels starting at level `lvl`. -/
def upLevels : Nat → Nat → List HashV → List HashV
  | _, 0, ns => ns
  | lvl, d + 1, ns => upLevels (lvl + 1) d (pairUp lvl ns)

/-- Root of the depth-32 Orchard commitment tree over the given leaves. -/
def merkleRoot (leaves : List Bytes32) : HashV :=
  match upLevels 0 32 (leaves.map HashV.leaf) with
  | [r] => r
  | _ => HashV.empty 32

/-- The node at index `i` of a tree level, an empty-subtree hash when the
level has no node there. -/
def levelNode (lvl : Nat) (ns : List HashV) (i : Nat) : HashV :=
  ns.getD i (HashV.empty lvl)

/-- Sibling path from leaf index `idx` up `d` levels starting at `lvl`. -/
def authPathAux : Nat → Nat → List HashV → Nat → List HashV
  | _, 0, _, _ => []
  | lvl, d + 1, ns, idx =>
    let sib := if idx % 2 = 0 then levelNode lvl ns (idx + 1) else levelNode lvl ns (idx - 1)
    sib :: authPathAux (lvl + 1) d (pairUp lvl ns) (idx / 2)

/-- The 32-element authentication path for position `pos` over `leaves`. -/
def authPath (leaves : List Bytes32) (pos : Nat) : List HashV :=
  authPathAux 0 32 (leaves.map HashV.leaf) pos

/-- Equality of `Except` results is decidable componentwise (used to evaluate
claims on concrete inputs). -/
instance exceptDecEq {ε α : Type} [DecidableEq ε] [DecidableEq α] :
    DecidableEq (Except ε α)
  | Except.ok a, Except.ok b =>
    if h : a = b then isTrue (by rw [h]) else isFalse (fun hc => h (Except.ok.inj hc))
  | Except.ok _, Except.error _ => isFalse (fun hc => Except.noConfusion hc)
  | Except.error _, Except.ok _ => isFalse (fun hc => Except.noConfusion hc)
  | Except.error e, Except.error f =>
    if h : e = f then isTrue (by rw [h]) else isFalse (fun hc => h (Except.error.inj hc))

/-- Typed model of the `Err(String)` values produced by the wallet code; one
constructor per distinct error string. -/
inductive WErr where
  /-- "Invalid commitment bytes" -/
  | invalidCommitmentBytes
  /-- "Failed to append to tree (tree full)" / "Failed to add to tree" -/
  | treeFull
  /-- "Position not found for CMX {cmx}. Did you forget to call
  append_commitment first?" -/
  | positionNotFound (cmx : Bytes32)
  /-- "Cannot get current tree root" / "Cannot get tree root at depth 0" -/
  | cannotGetRoot
  /-- "Tree is empty, no anchor available" -/
  | treeEmptyNoAnchor
  /-- "Failed to generate witness for position {p} at checkpoint depth 0" -/
  | witnessFailed (pos : Nat)
  /-- "Position too large for u32" -/
  | positionTooLarge
  /-- "FVK not found in wallet" -/
  | fvkNotFound
  /-- "Insufficient balance: have {avail}, need {target}" -/
  | insufficientBalance (avail target : Nat)
  /-- "Amount overflow" -/
  | amountOverflow
  /-- "Failed to create witness from tree" -/
  | witnessFromTree
deriving DecidableEq, Repr

/-- The `bridgetree::BridgeTree<MerkleHashOrchard, u32, 32>` commitment
accumulator, at the interface the wallet uses.  `bridgetree` is an external
crate (not under `src/`); per spec section 4.1 the accumulator exposes
`append`, `mark`, `root(checkpointDepth)`, `witness(position,
checkpointDepth)`, `checkpoint(ledgerSeq)` with depth 0 meaning the current
tree state, `root(0)` failing on an empty tree, and `witness` failing for a
position that is not marked / not yet committed. -/
structure BridgeTree where
  /-- Appended leaf commitments, in append order; position `i` is `leaves[i]`. -/
  leaves : List Bytes32
  /-- Positions recorded by `mark()` for later witnessing. -/
  marked : List Nat
  /-- Checkpoint ring, oldest first: `(checkpoint id, leaf count)`. -/
  checkpoints : List (Nat × Nat)
  /-- Retention bound for checkpoints (100 in this wallet). -/
  max_checkpoints : Nat
deriving DecidableEq, Repr

/-- `BridgeTree::new(max_checkpoints)`. -/
def BridgeTree.new (maxC : Nat) : BridgeTree :=
  { leaves := [], marked := [], checkpoints := [], max_checkpoints := maxC }

/-- Leaf capacity of a depth-32 tree. -/
def treeCapacity : Nat := 2 ^ 32

/-- `BridgeTree::append`: `true` and the grown tree on success, `false`
(state unchanged) when the leaf capacity `2^32` is exhausted. -/
def BridgeTree.append (t : BridgeTree) (c : Bytes32) : BridgeTree × Bool :=
  if t.leaves.length < treeCapacity then
    ({ t with leaves := t.leaves ++ [c] }, true)
  else (t, false)

/-- `BridgeTree::mark`: marks and returns the position of the most recently
appended leaf, `none` on an empty tree. -/
def BridgeTree.mark (t : BridgeTree) : BridgeTree × Option Nat :=
  if t.leaves.isEmpty then (t, none)
  else
    let p := t.leaves.length - 1
    ({ t with marked := hsInsert p t.marked }, some p)

/-- `BridgeTree::root(checkpoint_depth)`: depth 0 is the current root
(`none` on an empty tree); depth `k > 0` is the root as of the `k`-th most
recent checkpoint, `none` when `k` exceeds the retained history. -/
def BridgeTree.root (t : BridgeTree) (depth : Nat) : Option HashV :=
  if depth = 0 then
    if t.leaves.isEmpty then none else some (merkleRoot t.leaves)
  else
    match t.checkpoints.reverse[depth - 1]? with
    | none => none
    | some (_, size) =>
      if size = 0 then none else some (merkleRoot (t.leaves.take size))

/-- `BridgeTree::witness(position, checkpoint_depth)`: the authentication
path for `position` at that depth; fails when the position is not marked or
was not yet committed at that depth's state. -/
def BridgeTree.witnessAt (t : BridgeTree) (pos depth : Nat) : Except WErr (List HashV) :=
  if depth = 0 then
    if pos ∈ t.marked ∧ pos < t.leaves.length then
      Except.ok (authPath t.leaves pos)
    else Except.error (WErr.witnessFailed pos)
  else
    match t.checkpoints.reverse[depth - 1]? with
    | none => Except.error (WErr.witnessFailed pos)
    | some (_, size) =>
      if pos ∈ t.marked ∧ pos < size then
        Except.ok (authPath (t.leaves.take size) pos)
      else Except.error (WErr.witnessFailed pos)

/-- `BridgeTree::checkpoint(id)`: snapshots the current leaf count under
`id`, evicting the oldest snapshot beyond the retention bound; returns
`false` (no snapshot) when `id` does not exceed every existing checkpoint
id. -/
def BridgeTree.checkpoint (t : BridgeTree) (id : Nat) : BridgeTree × Bool :=
  if t.checkpoints.all (fun c => decide (c.1 < id)) then
    let cs := t.checkpoints ++ [(id, t.leaves.length)]
    ({ t with checkpoints := if t.max_checkpoints < cs.length then cs.drop (cs.length - t.max_checkpoints) else cs }, true)
  else (t, false)

/-- A decrypted note with metadata for spending (`wallet_state.rs` lines
34-58), field for field. -/
structure DecryptedNote where
  /-- The full Orchard note. -/
  note : Note
  /-- Note commitment (cmx). -/
  cmx : Bytes32
  /-- Nullifier. -/
  nullifier : Bytes32
  /-- Amount in drops. -/
  amount : Nat
  /-- Ledger sequence where received. -/
  ledger_seq : Nat
  /-- Transaction hash. -/
  tx_hash : Bytes32
  /-- Action index within transaction. -/
  action_idx : Nat
  /-- Position in commitment tree. -/
  position : Nat
  /-- Anchor from the transaction that created this note (reference only). -/
  anchor : Anchor
  /-- Index of the IVK that decrypted this note. -/
  ivk_index : Nat
deriving DecidableEq, Repr

/-- `OrchardWalletState` (`wallet_state.rs` lines 71-98), field for field. -/
structure OrchardWalletState where
  /-- Registered incoming viewing keys (`Vec<IncomingViewingKey>`). -/
  ivks : List Ivk
  /-- Decrypted notes indexed by `(tx_hash, action_idx)` (`BTreeMap`). -/
  notes : List (NoteId × DecryptedNote)
  /-- BridgeTree for commitment tracking. -/
  commitment_tree : BridgeTree
  /-- Nullifier tracking: nullifier -> note_id (`BTreeMap`). -/
  nullifiers : List (Bytes32 × NoteId)
  /-- Spent notes (`HashSet<NoteId>`). -/
  spent_notes : List NoteId
  /-- Last ledger sequence processed. -/
  last_checkpoint : Option Nat
  /-- Per-bundle cmx -> position staging map (`BTreeMap`). -/
  cmx_to_position : List (Bytes32 × Nat)
deriving DecidableEq, Repr

/-- `OrchardWalletState::new` (lines 102-112). -/
def OrchardWalletState.new : OrchardWalletState :=
  { ivks := []
    notes := []
    commitment_tree := BridgeTree.new 100
    nullifiers := []
    spent_notes := []
    last_checkpoint := none
    cmx_to_position := [] }

/-- `add_ivk` (lines 115-119): push the key unless already present. -/
def OrchardWalletState.add_ivk (s : OrchardWalletState) (ivk : Ivk) : OrchardWalletState :=
  if ivk ∈ s.ivks then s else { s with ivks := s.ivks ++ [ivk] }

/-- `remove_ivk` (lines 122-124): `Vec::retain` by value inequality. -/
def OrchardWalletState.remove_ivk (s : OrchardWalletState) (ivk : Ivk) : OrchardWalletState :=
  { s with ivks := s.ivks.filter (fun k => decide (k ≠ ivk)) }

/-- `list_ivks` (lines 127-129). -/
def OrchardWalletState.list_ivks (s : OrchardWalletState) : List Ivk := s.ivks

/-- `append_commitment` (lines 139-164): append the commitment to the tree
(error when full), then `mark()` and record the commitment's position in the
staging map.  The `MerkleHashOrchard::from_bytes` canonicity check is
external crypto and always succeeds in the model. -/
def OrchardWalletState.append_commitment (s : OrchardWalletState) (cmx : Bytes32) :
    OrchardWalletState × Except WErr Unit :=
  let (t1, okAppend) := s.commitment_tree.append cmx
  if okAppend then
    let (t2, mpos) := t1.mark
    match mpos with
    | some position =>
      ({ s with commitment_tree := t2,
                cmx_to_position := mapInsert natLtB cmx position s.cmx_to_position },
       Except.ok ())
    | none => ({ s with commitment_tree := t2 }, Except.ok ())
  else (s, Except.error WErr.treeFull)

/-- `add_note` (lines 179-233): look the position up in the staging map
(error `positionNotFound` when absent, state unchanged), then store the
`DecryptedNote` under `(tx_hash, action_idx)` and index its nullifier. -/
def OrchardWalletState.add_note (s : OrchardWalletState) (note : Note)
    (cmx nullifier tx_hash : Bytes32) (action_idx ledger_seq : Nat)
    (anchor : Anchor) (ivk_index : Nat) :
    OrchardWalletState × Except WErr Unit :=
  let amount := note.value
  match mapGet cmx s.cmx_to_position with
  | none => (s, Except.error (WErr.positionNotFound cmx))
  | some position =>
    let note_id : NoteId := (tx_hash, action_idx)
    let dn : DecryptedNote :=
      { note, cmx, nullifier, amount, ledger_seq, tx_hash, action_idx, position, anchor, ivk_index }
    ({ s with notes := mapInsert idLtB note_id dn s.notes,
              nullifiers := mapInsert natLtB nullifier note_id s.nullifiers },
     Except.ok ())

/-- One Orchard action of a bundle, at the interface the scanner reads: the
commitment `cmx().to_bytes()`, the revealed `nullifier().to_bytes()`, and the
encrypted payload (ciphertext plus ephemeral key, opaque to the wallet). -/
structure Action where
  cmx : Bytes32
  nullifier : Bytes32
  payload : Nat
deriving DecidableEq, Repr

/-- Trial decryption of one action: the external
`try_note_decryption(OrchardDomain, PreparedIncomingViewingKey, action)`
primitive of spec section 6, passed in as a parameter. -/
abbrev TryDec := Ivk → Action → Option Note

/-- The inner `for (ivk_index, ivk) in self.ivks.iter().enumerate()` loop of
`try_decrypt_notes_from_bundle`: first key (in registry order) that decrypts
the action, with its index. -/
def firstDecryptAux (td : TryDec) (a : Action) : Nat → List Ivk → Option (Nat × Note)
  | _, [] => none
  | i, k :: rest =>
    match td k a with
    | some note => some (i, note)
    | none => firstDecryptAux td a (i + 1) rest

/-- First registered key that decrypts `a`, with its index. -/
def firstDecrypt (td : TryDec) (ivks : List Ivk) (a : Action) : Option (Nat × Note) :=
  firstDecryptAux td a 0 ivks

/-- The action loop of `try_decrypt_notes_from_bundle` (lines 276-332): for
each action, on first successful decryption fetch the current tree root
(error when the tree is empty), convert it to the anchor and `add_note`;
errors propagate immediately (leaving the state as mutated so far); when the
action list is exhausted the staging map is cleared and the count returned. -/
def tdAux (td : TryDec) (tx_hash : Bytes32) (ledger_seq : Nat) :
    OrchardWalletState → Nat → Nat → List Action → OrchardWalletState × Except WErr Nat
  | s, _, cnt, [] => ({ s with cmx_to_position := [] }, Except.ok cnt)
  | s, idx, cnt, a :: rest =>
    match firstDecrypt td s.ivks a with
    | none => tdAux td tx_hash ledger_seq s (idx + 1) cnt rest
    | some (ivkIdx, note) =>
      match s.commitment_tree.root 0 with
      | none => (s, Except.error WErr.cannotGetRoot)
      | some r =>
        match s.add_note note a.cmx a.nullifier tx_hash idx ledger_seq r ivkIdx with
        | (s', Except.ok _) => tdAux td tx_hash ledger_seq s' (idx + 1) (cnt + 1) rest
        | (s', Except.error e) => (s', Except.error e)

/-- `try_decrypt_notes_from_bundle` (lines 267-333). -/
def OrchardWalletState.try_decrypt_notes_from_bundle (s : OrchardWalletState)
    (td : TryDec) (bundle : List Action) (tx_hash : Bytes32) (ledger_seq : Nat) :
    OrchardWalletState × Except WErr Nat :=
  tdAux td tx_hash ledger_seq s 0 0 bundle

/-- `mark_spent` (lines 336-340): look the note id up in the nullifier index
and add it to the spent set; unknown nullifier is a no-op. -/
def OrchardWalletState.mark_spent (s : OrchardWalletState) (nullifier : Bytes32) :
    OrchardWalletState :=
  match mapGet nullifier s.nullifiers with
  | some note_id => { s with spent_notes := hsInsert note_id s.spent_notes }
  | none => s

/-- `get_anchor` (lines 343-350): current root at depth 0, error on an empty
tree. -/
def OrchardWalletState.get_anchor (s : OrchardWalletState) : Except WErr Anchor :=
  match s.commitment_tree.root 0 with
  | none => Except.error WErr.treeEmptyNoAnchor
  | some r => Except.ok r

/-- Sum of the amounts of a list of notes. -/
def sumAmounts (l : List DecryptedNote) : Nat := (l.map (fun n => n.amount)).sum

/-- `get_balance` (lines 353-359). -/
def OrchardWalletState.get_balance (s : OrchardWalletState) : Nat :=
  sumAmounts ((s.notes.filter (fun e => decide (e.1 ∉ s.spent_notes))).map Prod.snd)

/-- `list_notes` (lines 362-368). -/
def OrchardWalletState.list_notes (s : OrchardWalletState) (include_spent : Bool) :
    List DecryptedNote :=
  (s.notes.filter (fun e => include_spent || decide (e.1 ∉ s.spent_notes))).map Prod.snd

/-- `get_note` (lines 371-376): first note (in map key order) with the given
commitment. -/
def OrchardWalletState.get_note (s : OrchardWalletState) (cmx : Bytes32) :
    Option DecryptedNote :=
  (s.notes.find? (fun e => decide (e.2.cmx = cmx))).map Prod.snd

/-- One step of the stable sort by amount (`Vec::sort_by_key` is stable):
insert a note after every note of amount less than or equal to its own. -/
def insertNote (n : DecryptedNote) : List DecryptedNote → List DecryptedNote
  | [] => [n]
  | m :: rest => if m.amount ≤ n.amount then m :: insertNote n rest else n :: m :: rest

/-- Stable sort of notes ascending by amount. -/
def sortByAmount (l : List DecryptedNote) : List DecryptedNote :=
  l.foldl (fun acc n => insertNote n acc) []

/-- Ordering of notes by amount (the `sort_by_key` key). -/
abbrev amountLe (a b : DecryptedNote) : Prop := a.amount ≤ b.amount

/-- Strict order of notes by their registry key `(tx_hash, action_idx)`. -/
abbrev noteKeyLt (a b : DecryptedNote) : Prop :=
  idLtB (a.tx_hash, a.action_idx) (b.tx_hash, b.action_idx) = true

/-- Strict order by amount with ties broken by the registry key: the order
in which `get_spendable_notes` lists distinct-key notes. -/
abbrev amountKeyLt (a b : DecryptedNote) : Prop :=
  a.amount < b.amount ∨ (a.amount = b.amount ∧ noteKeyLt a b)

/-- `get_spendable_notes` (lines 381-392): unspent notes in map key order,
stably sorted ascending by amount. -/
def OrchardWalletState.get_spendable_notes (s : OrchardWalletState) : List DecryptedNote :=
  sortByAmount ((s.notes.filter (fun e => decide (e.1 ∉ s.spent_notes))).map Prod.snd)

/-- The `u64` range bound used by `checked_add`. -/
def u64Size : Nat := 2 ^ 64

/-- The selection loop of `select_notes` (lines 492-512): push each note,
`checked_add` its amount (error on `u64` overflow), and return the selection
once the running total reaches the target; error `insufficientBalance` when
the notes run out first. -/
def selectGo (target : Nat) : List DecryptedNote → List DecryptedNote → Nat →
    Except WErr (List DecryptedNote)
  | [], _, total => Except.error (WErr.insufficientBalance total target)
  | n :: rest, acc, total =>
    if total + n.amount < u64Size then
      if target ≤ total + n.amount then Except.ok (acc ++ [n])
      else selectGo target rest (acc ++ [n]) (total + n.amount)
    else Except.error WErr.amountOverflow

/-- `select_notes` (lines 470-513).  The Rust function takes an optional
`&FullViewingKey` and derives `fvk.to_ivk(Scope::External)` — an external key
derivation; the model takes the derived incoming viewing key directly.  When
a filter key is given, its registry index is looked up (error `fvkNotFound`
when absent) and the spendable list is restricted to notes with that
`ivk_index` before the greedy loop runs. -/
def OrchardWalletState.select_notes (s : OrchardWalletState) (target_amount : Nat)
    (fvk : Option Ivk) : Except WErr (List DecryptedNote) :=
  let spendable := s.get_spendable_notes
  match fvk with
  | none => selectGo target_amount spendable [] 0
  | some ivk =>
    match s.ivks.findIdx? (fun k => decide (k = ivk)) with
    | none => Except.error WErr.fvkNotFound
    | some i => selectGo target_amount (spendable.filter (fun n => decide (n.ivk_index = i))) [] 0

/-- An `orchard::tree::MerklePath`, built by `MerklePath::from_parts
(position, auth_path)`. -/
structure MerklePath where
  position : Nat
  auth_path : List HashV
deriving DecidableEq, Repr

/-- Pad or truncate a witness to the fixed 32 elements, unfilled entries
being `MerkleHashOrchard::empty_leaf()` (lines 428-431). -/
def padTo32 (l : List HashV) : List HashV :=
  l.take 32 ++ List.replicate (32 - (l.take 32).length) (HashV.empty 0)

/-- `get_merkle_path` (lines 403-435): witness for `note.position` at
checkpoint depth 0, a current-root existence check, the `u32` bound check on
the position, and the padded 32-element path. -/
def OrchardWalletState.get_merkle_path (s : OrchardWalletState) (note : DecryptedNote) :
    Except WErr MerklePath :=
  match s.commitment_tree.witnessAt note.position 0 with
  | Except.error e => Except.error e
  | Except.ok auth_path_vec =>
    match s.commitment_tree.root 0 with
    | none => Except.error WErr.cannotGetRoot
    | some _ =>
      if note.position < 2 ^ 32 then
        Except.ok { position := note.position, auth_path := padTo32 auth_path_vec }
      else Except.error WErr.positionTooLarge

/-- `get_note_anchor` (lines 443-462): always the root of the current tree
state (depth 0), error on an empty tree; the note's stored anchor is only
printed, never used. -/
def OrchardWalletState.get_note_anchor (s : OrchardWalletState) (note : DecryptedNote) :
    Except WErr Anchor :=
  match s.commitment_tree.root 0 with
  | none => Except.error WErr.treeEmptyNoAnchor
  | some r => Except.ok r

/-- `checkpoint` (lines 521-530): checkpoint the tree under `ledger_seq`;
on success record it as the last checkpoint. -/
def OrchardWalletState.checkpoint (s : OrchardWalletState) (ledger_seq : Nat) :
    OrchardWalletState × Bool :=
  let (t, success) := s.commitment_tree.checkpoint ledger_seq
  if success then
    ({ s with commitment_tree := t, last_checkpoint := some ledger_seq }, true)
  else ({ s with commitment_tree := t }, false)

/-- `reset` (lines 538-545): clears notes, tree, nullifier index, spent set,
last checkpoint and staging map.  (It does not touch `ivks`.) -/
def OrchardWalletState.reset (s : OrchardWalletState) : OrchardWalletState :=
  { s with notes := []
           commitment_tree := BridgeTree.new 100
           nullifiers := []
           spent_notes := []
           last_checkpoint := none
           cmx_to_position := [] }

/-- A note with all the information needed to spend it (`note_manager.rs`
lines 24-41).  The `IncrementalWitness` is modelled as the snapshot of the
tree's leaves at witness-creation time; its contents are opaque to every
operation verified here. -/
structure SpendableNote where
  note : Note
  position : Nat
  witness : List Bytes32
  cmx : Bytes32
  nullifier : Bytes32
  amount : Nat
  ledger_seq : Nat
  tx_hash : Bytes32
deriving DecidableEq, Repr

/-- `NoteManager` (`note_manager.rs` lines 44-51).  `notes` is a
`HashMap<[u8; 32], SpendableNote>` keyed by cmx (iteration order of a Rust
`HashMap` is unspecified; the model uses insertion order — no claim verified
here depends on it), `tree` a `CommitmentTree<MerkleHashOrchard, 32>` of
which only the leaf sequence is observable here, `spent_notes` a
`HashSet<[u8; 32]>`. -/
structure NoteManager where
  notes : List (Bytes32 × SpendableNote)
  tree : List Bytes32
  spent_notes : List Bytes32
deriving DecidableEq, Repr

/-- `NoteManager::new` (lines 55-61). -/
def NoteManager.new : NoteManager :=
  { notes := [], tree := [], spent_notes := [] }

/-- `NoteManager::add_note` (lines 67-106): create the witness from the tree
as it is before the append — the external, `Option`-returning
`IncrementalWitness::from_tree` witnesses the most recent commitment of the
tree and returns `None` on an empty tree, so on an empty tree `add_note`
fails with "Failed to create witness from tree" before mutating anything —
then append the commitment (error when the depth-32 tree is full), compute
`position = tree.size() - 1`, and insert the `SpendableNote` keyed by cmx.
The external `MerkleHashOrchard::from_bytes` canonicity check always
succeeds in the model. -/
def NoteManager.add_note (m : NoteManager) (note : Note)
    (cmx nullifier : Bytes32) (ledger_seq : Nat) (tx_hash : Bytes32) :
    NoteManager × Except WErr Unit :=
  if m.tree.isEmpty then (m, Except.error WErr.witnessFromTree)
  else if m.tree.length < treeCapacity then
    let witness := m.tree
    let tree' := m.tree ++ [cmx]
    let position := tree'.length - 1
    ({ m with tree := tree',
              notes := hmInsert cmx
                { note, position, witness, cmx, nullifier,
                  amount := note.value, ledger_seq, tx_hash } m.notes },
     Except.ok ())
  else (m, Except.error WErr.treeFull)

/-- `NoteManager::mark_spent` (lines 109-118): find a note with this
nullifier; insert its cmx into the spent set and remove the note from the
map. -/
def NoteManager.mark_spent (m : NoteManager) (nullifier : Bytes32) : NoteManager :=
  match m.notes.find? (fun e => decide (e.2.nullifier = nullifier)) with
  | some e =>
    { m with spent_notes := hsInsert e.1 m.spent_notes,
             notes := m.notes.filter (fun e' => decide (e'.1 ≠ e.1)) }
  | none => m

/-- `NoteManager::get_balance` (lines 191-196). -/
def NoteManager.get_balance (m : NoteManager) : Nat :=
  ((m.notes.filter (fun e => decide (e.2.cmx ∉ m.spent_notes))).map
    (fun e => e.2.amount)).sum

/-- `NoteManager::note_count` (lines 199-201): `self.notes.len() -
self.spent_notes.len()` on `usize`; `none` models the panic a debug build
raises when the subtraction underflows (a release build wraps around). -/
def NoteManager.note_count (m : NoteManager) : Option Nat :=
  if m.spent_notes.length ≤ m.notes.length then
    some (m.notes.length - m.spent_notes.length)
  else none

/-- One mutating `NoteManager` operation: an `add_note` call (with its
arguments) or a `mark_spent` call. -/
inductive NMOp where
  | addNote (note : Note) (cmx nullifier : Bytes32) (ledger_seq : Nat) (tx_hash : Bytes32)
  | markSpent (nullifier : Bytes32)
deriving DecidableEq, Repr

/-- Run a sequence of `add_note` / `mark_spent` operations on a manager (a
failing `add_note` leaves the state it returns, exactly as the Rust `&mut
self` call does). -/
def runOps : NoteManager → List NMOp → NoteManager
  | m, [] => m
  | m, op :: rest =>
    runOps
      (match op with
        | NMOp.addNote note cmx nf ls tx => (m.add_note note cmx nf ls tx).1
        | NMOp.markSpent nf => m.mark_spent nf)
      rest

/-! Concrete states used by witnesses and counterexamples.  Each is built
through the wallet's own operations, so every one is reachable. -/

/-- Shorthand for the anchor argument passed to `add_note` in concrete
scenarios (its value is irrelevant everywhere it is used). -/
def anchor0 : Anchor := HashV.empty 32

/-- Scenario C wallet (spec section 8): one viewing key and three unspent
notes of amounts 1000, 2000, 3000, built by three append/add rounds. -/
def scenC : OrchardWalletState :=
  let s0 := OrchardWalletState.new.add_ivk 10
  let s1 := (s0.append_commitment 1).1
  let s2 := (s1.append_commitment 2).1
  let s3 := (s2.append_commitment 3).1
  let s4 := (s3.add_note ⟨1000⟩ 1 11 1 0 1 anchor0 0).1
  let s5 := (s4.add_note ⟨2000⟩ 2 12 2 0 1 anchor0 0).1
  (s5.add_note ⟨3000⟩ 3 13 3 0 1 anchor0 0).1

/-- The amount-1000 note of `scenC` as stored (commitment 1, position 0). -/
def scenCNote1 : DecryptedNote :=
  { note := ⟨1000⟩, cmx := 1, nullifier := 11, amount := 1000, ledger_seq := 1,
    tx_hash := 1, action_idx := 0, position := 0, anchor := anchor0, ivk_index := 0 }

/-- The amount-2000 note of `scenC` as stored (commitment 2, position 1). -/
def scenCNote2 : DecryptedNote :=
  { note := ⟨2000⟩, cmx := 2, nullifier := 12, amount := 2000, ledger_seq := 1,
    tx_hash := 2, action_idx := 0, position := 1, anchor := anchor0, ivk_index := 0 }

/-- Wallet for the tie-breaking counterexample: two notes of equal amount
100, the first inserted under tx hash 5, the second inserted under the
smaller tx hash 3.  Insertion order is `c5NoteFirst` then `c5NoteSecond`;
the `BTreeMap` key order is the reverse. -/
def sC5 : OrchardWalletState :=
  let s0 := OrchardWalletState.new.add_ivk 10
  let s1 := (s0.append_commitment 50).1
  let s2 := (s1.append_commitment 30).1
  let s3 := (s2.add_note ⟨100⟩ 50 55 5 0 1 anchor0 0).1
  (s3.add_note ⟨100⟩ 30 33 3 0 1 anchor0 0).1

/-- The note inserted first into `sC5` (tx hash 5, position 0). -/
def c5NoteFirst : DecryptedNote :=
  { note := ⟨100⟩, cmx := 50, nullifier := 55, amount := 100, ledger_seq := 1,
    tx_hash := 5, action_idx := 0, position := 0, anchor := anchor0, ivk_index := 0 }

/-- The note inserted second into `sC5` (tx hash 3, position 1). -/
def c5NoteSecond : DecryptedNote :=
  { note := ⟨100⟩, cmx := 30, nullifier := 33, amount := 100, ledger_seq := 1,
    tx_hash := 3, action_idx := 0, position := 1, anchor := anchor0, ivk_index := 0 }

/-- Wallet for the staging-map counterexample: one registered key, one
commitment (value 1) appended — the staging map holds `1 ↦ 0`. -/
def c1State : OrchardWalletState :=
  ((OrchardWalletState.new.add_ivk 10).append_commitment 1).1

/-- Trial-decryption oracle for the staging-map counterexample: every key
decrypts exactly the action whose commitment is 2. -/
def c1TryDec : TryDec := fun _ a => if a.cmx = 2 then some ⟨5⟩ else none

/-- The bundle for the staging-map counterexample: a single action whose
commitment (2) was never appended. -/
def c1Bundle : List Action := [{ cmx := 2, nullifier := 7, payload := 0 }]

/-- A trial-decryption oracle that never decrypts. -/
def tdNone : TryDec := fun _ _ => none

/-- Small wallet for the spend-preparation witness: one commitment appended
(so position 0 is marked and the tree is non-empty). -/
def c3State : OrchardWalletState :=
  (OrchardWalletState.new.append_commitment 1).1

/-- A note at position 0 whose stored creation-time anchor is `leaf 7`. -/
def c3NoteA : DecryptedNote :=
  { note := ⟨100⟩, cmx := 1, nullifier := 11, amount := 100, ledger_seq := 1,
    tx_hash := 1, action_idx := 0, position := 0, anchor := HashV.leaf 7, ivk_index := 0 }

/-- A note at position 0 with a different stored anchor (`leaf 8`) and
different metadata. -/
def c3NoteB : DecryptedNote :=
  { note := ⟨200⟩, cmx := 1, nullifier := 12, amount := 200, ledger_seq := 2,
    tx_hash := 2, action_idx := 1, position := 0, anchor := HashV.leaf 8, ivk_index := 0 }

/-! Theorems. -/

/-- Inserting an element twice into a `HashSet` is the same as inserting it
once. -/
theorem hsInsert_idem {α : Type} [DecidableEq α] (x : α) (l : List α) :
    hsInsert x (hsInsert x l) = hsInsert x l := by
  by_cases h : x ∈ l
  · simp [hsInsert, h]
  · simp [hsInsert, h]

/-- Claim C2, counterexample: `reset` does not clear the viewing-key
registry, so a reset wallet that had a key registered is not the freshly
created empty wallet. -/
theorem claim_c2_counterexample :
    ((OrchardWalletState.new.add_ivk 10).reset).ivks = [10] ∧
    OrchardWalletState.new.ivks = [] ∧
    (OrchardWalletState.new.add_ivk 10).reset ≠ OrchardWalletState.new := by
  refine ⟨rfl, rfl, ?_⟩
  decide

/-- Claim C2, amended: after `reset()` the wallet equals the freshly created
empty wallet in every component — no stored notes, no nullifier-index
entries, no spent-set entries, an empty accumulator with no checkpoints, no
last-checkpoint value, an empty staging map — except the viewing-key
registry, which is retained unchanged. -/
theorem claim_c2_amended (s : OrchardWalletState) :
    s.reset.notes = [] ∧ s.reset.nullifiers = [] ∧ s.reset.spent_notes = [] ∧
    s.reset.commitment_tree = BridgeTree.new 100 ∧
    s.reset.commitment_tree = OrchardWalletState.new.commitment_tree ∧
    s.reset.last_checkpoint = none ∧ s.reset.cmx_to_position = [] ∧
    s.reset.ivks = s.ivks :=
  ⟨rfl, rfl, rfl, rfl, rfl, rfl, rfl, rfl⟩

/-- Claim C6, counterexample: with keys 10, 11 registered, index 1 denotes
key 11; after `remove_ivk 10` and `add_ivk 12` the registry is `[11, 12]`,
so index 1 — previously assigned to key 11 — now denotes the later-added
key 12. -/
theorem claim_c6_counterexample :
    ((OrchardWalletState.new.add_ivk 10).add_ivk 11).ivks[1]? = some 11 ∧
    ((((OrchardWalletState.new.add_ivk 10).add_ivk 11).remove_ivk 10).add_ivk
        12).ivks[1]? = some 12 ∧
    (11 : Ivk) ≠ 12 := by
  decide

/-- Claim C6, amended: key indices are stable as long as no key is removed —
`add_ivk` never changes the index of any already-registered key; but
`remove_ivk` compacts the registry (`Vec::retain`), so after a removal the
indices of later keys shift down and an index previously assigned to one key
can be assigned again to a key added later (stored `ivk_index` values on
notes are not remapped). -/
theorem claim_c6_amended (s : OrchardWalletState) (k : Ivk) (i : Nat)
    (h : i < s.ivks.length) : ((s.add_ivk k).ivks)[i]? = s.ivks[i]? := by
  unfold OrchardWalletState.add_ivk
  split
  · rfl
  · simp [List.getElem?_append, h]

/-- Witness for `claim_c6_amended` at a concrete registry. -/
theorem claim_c6_witness :
    ((OrchardWalletState.new.add_ivk 10).add_ivk 11).ivks[0]? =
      (OrchardWalletState.new.add_ivk 10).ivks[0]? :=
  claim_c6_amended (OrchardWalletState.new.add_ivk 10) 11 0 (by decide)

/-- Claim C7: `mark_spent` applied twice yields the same spent set as
applied once, and on a nullifier absent from the nullifier index it is a
no-op leaving the entire wallet state unchanged. -/
theorem claim_c7 (s : OrchardWalletState) (n : Bytes32) :
    ((s.mark_spent n).mark_spent n).spent_notes = (s.mark_spent n).spent_notes ∧
    (mapGet n s.nullifiers = none → s.mark_spent n = s) := by
  constructor
  · cases h : mapGet n s.nullifiers with
    | none => simp [OrchardWalletState.mark_spent, h]
    | some note_id => simp [OrchardWalletState.mark_spent, h, hsInsert_idem]
  · intro h
    simp [OrchardWalletState.mark_spent, h]

/-- Witness for `claim_c7` at a concrete wallet and nullifier. -/
theorem claim_c7_witness :
    OrchardWalletState.new.mark_spent 0 = OrchardWalletState.new :=
  (claim_c7 OrchardWalletState.new 0).2 rfl

/-- Claim C8: `add_note` fails — with the `positionNotFound`
state-consistency error — exactly when the staging map holds no position for
the note's commitment, and on that failure the wallet state (note registry,
nullifier index and all) is unchanged. -/
theorem claim_c8 (s : OrchardWalletState) (note : Note)
    (cmx nullifier tx_hash : Bytes32) (action_idx ledger_seq : Nat)
    (anchor : Anchor) (ivk_index : Nat) :
    ((s.add_note note cmx nullifier tx_hash action_idx ledger_seq anchor ivk_index).2
        = Except.error (WErr.positionNotFound cmx)
      ↔ mapGet cmx s.cmx_to_position = none) ∧
    (∀ e, (s.add_note note cmx nullifier tx_hash action_idx ledger_seq anchor ivk_index).2
        = Except.error e →
      e = WErr.positionNotFound cmx ∧
      (s.add_note note cmx nullifier tx_hash action_idx ledger_seq anchor ivk_index).1 = s) := by
  cases h : mapGet cmx s.cmx_to_position with
  | none => simp [OrchardWalletState.add_note, h]
  | some p => simp [OrchardWalletState.add_note, h]

/-- Witness for `claim_c8` at a concrete failing `add_note` call. -/
theorem claim_c8_witness :
    (OrchardWalletState.new.add_note ⟨5⟩ 1 2 3 0 0 anchor0 0).1 = OrchardWalletState.new :=
  ((claim_c8 OrchardWalletState.new ⟨5⟩ 1 2 3 0 0 anchor0 0).2
    (WErr.positionNotFound 1) rfl).2

/-- Looking up a key right after inserting it yields the inserted value, for
the sorted-map insert. -/
theorem mapGet_mapInsert_self {α β : Type} [DecidableEq α] (lt : α → α → Bool)
    (k : α) (v : β) : ∀ m : List (α × β), mapGet k (mapInsert lt k v m) = some v
  | [] => by simp [mapInsert, mapGet]
  | e :: rest => by
    unfold mapInsert
    by_cases h1 : lt k e.1 = true
    · simp [h1, mapGet]
    · by_cases h2 : k = e.1
      · subst h2
        simp [h1, mapGet]
      · simp [h1, h2, mapGet, mapGet_mapInsert_self lt k v rest]

/-- Claim C3: spend preparation never consults a note's stored creation-time
anchor — `get_note_anchor` returns the same anchor for any two notes, that
anchor is exactly the current root `root(0)`, and `get_merkle_path` depends
only on the note's position (it is the `witness(position, 0)` path, carrying
that position). -/
theorem claim_c3 (s : OrchardWalletState) (n₁ n₂ : DecryptedNote) :
    s.get_note_anchor n₁ = s.get_note_anchor n₂ ∧
    (∀ a, s.get_note_anchor n₁ = Except.ok a → s.commitment_tree.root 0 = some a) ∧
    (n₁.position = n₂.position → s.get_merkle_path n₁ = s.get_merkle_path n₂) ∧
    (∀ p, s.get_merkle_path n₁ = Except.ok p → p.position = n₁.position) := by
  refine ⟨rfl, ?_, ?_, ?_⟩
  · intro a ha
    cases hr : s.commitment_tree.root 0 with
    | none => simp [OrchardWalletState.get_note_anchor, hr] at ha
    | some r =>
      simp [OrchardWalletState.get_note_anchor, hr] at ha
      rw [ha]
  · intro h
    simp only [OrchardWalletState.get_merkle_path, h]
  · intro p hp
    unfold OrchardWalletState.get_merkle_path at hp
    split at hp
    · exact Except.noConfusion hp
    · split at hp
      · exact Except.noConfusion hp
      · split at hp
        · cases hp
          rfl
        · exact Except.noConfusion hp

/-- Witness for `claim_c3`: a concrete one-leaf wallet and two notes at
position 0 that differ in stored anchor, amount and identity. -/
theorem claim_c3_witness :
    c3State.get_note_anchor c3NoteA = c3State.get_note_anchor c3NoteB ∧
    c3State.get_merkle_path c3NoteA = c3State.get_merkle_path c3NoteB ∧
    c3State.commitment_tree.root 0 = some (merkleRoot [1]) :=
  ⟨(claim_c3 c3State c3NoteA c3NoteB).1,
   (claim_c3 c3State c3NoteA c3NoteB).2.2.1 rfl,
   (claim_c3 c3State c3NoteA c3NoteB).2.1 (merkleRoot [1]) rfl⟩

/-- Every sequence of `add_note` / `mark_spent` operations leaves a fresh
`NoteManager` unchanged: the tree starts empty, `add_note` fails at the
`IncrementalWitness::from_tree` call before mutating anything whenever the
tree is empty, only `add_note` grows the tree, and `mark_spent` on an empty
note map is a no-op — so the manager stays the fresh empty one. -/
theorem runOps_new : ∀ ops : List NMOp, runOps NoteManager.new ops = NoteManager.new
  | [] => rfl
  | op :: rest => by
    cases op with
    | addNote note cmx nf ls tx => exact runOps_new rest
    | markSpent nf => exact runOps_new rest

/-- Claim C9: for every sequence of `add_note` and `mark_spent` operations
on a fresh `NoteManager`, `note_count()` returns without panicking and
equals the number of notes stored and not yet marked spent (`mark_spent`
removes a spent note from the map, so that number is `notes.len()`); in
particular, after the add-one-note-then-mark-its-nullifier-spent sequence,
`note_count()` is 0.  (The first `add_note` of any sequence fails at the
external `IncrementalWitness::from_tree` call — `None` on the empty tree —
before mutating anything, so every reachable manager is empty and both
counts are 0.) -/
theorem claim_c9 (ops : List NMOp) :
    (runOps NoteManager.new ops).note_count
      = some ((runOps NoteManager.new ops).notes.length) ∧
    ((NoteManager.new.add_note ⟨1000⟩ 3 4 100 5).1.mark_spent 4).note_count = some 0 := by
  rw [runOps_new ops]
  exact ⟨rfl, rfl⟩

/-- `append_commitment` below capacity: success, the commitment becomes the
next leaf, its position (the old leaf count) is marked and recorded in the
staging map. -/
theorem append_commitment_spec (s : OrchardWalletState) (c : Bytes32)
    (h : s.commitment_tree.leaves.length < treeCapacity) :
    (s.append_commitment c).2 = Except.ok () ∧
    (s.append_commitment c).1 =
      { s with
          commitment_tree :=
            { s.commitment_tree with
                leaves := s.commitment_tree.leaves ++ [c],
                marked := hsInsert s.commitment_tree.leaves.length s.commitment_tree.marked },
          cmx_to_position :=
            mapInsert natLtB c s.commitment_tree.leaves.length s.cmx_to_position } := by
  constructor <;>
    simp [OrchardWalletState.append_commitment, BridgeTree.append, BridgeTree.mark, h,
      List.isEmpty_iff]

/-- `add_note` when the staging map holds position `p` for the commitment:
success, and the note registry gains the `DecryptedNote` with that position
under key `(tx_hash, action_idx)`. -/
theorem add_note_spec (s : OrchardWalletState) (note : Note)
    (cmx nf tx : Bytes32) (ai ls : Nat) (anc : Anchor) (ivi : Nat) (p : Nat)
    (h : mapGet cmx s.cmx_to_position = some p) :
    (s.add_note note cmx nf tx ai ls anc ivi).2 = Except.ok () ∧
    (s.add_note note cmx nf tx ai ls anc ivi).1.notes
      = mapInsert idLtB (tx, ai)
          { note := note, cmx := cmx, nullifier := nf, amount := note.value,
            ledger_seq := ls, tx_hash := tx, action_idx := ai, position := p,
            anchor := anc, ivk_index := ivi } s.notes := by
  constructor <;> simp [OrchardWalletState.add_note, h]

/-- Claim C10: appending the same commitment value twice (both appends below
capacity) leaves the staging map holding only the position assigned by the
second append, and a note then added for that commitment is stored with that
most-recent position. -/
theorem claim_c10 (s : OrchardWalletState) (c : Bytes32)
    (h : s.commitment_tree.leaves.length + 1 < treeCapacity) :
    (s.append_commitment c).2 = Except.ok () ∧
    (((s.append_commitment c).1).append_commitment c).2 = Except.ok () ∧
    mapGet c ((((s.append_commitment c).1).append_commitment c).1).cmx_to_position
      = some (s.commitment_tree.leaves.length + 1) ∧
    (∀ note nf tx ai ls anc ivi,
      (((((s.append_commitment c).1).append_commitment c).1).add_note note c nf tx ai ls anc ivi).2
        = Except.ok () ∧
      ∃ dn, mapGet (tx, ai)
          ((((((s.append_commitment c).1).append_commitment c).1).add_note note c nf tx ai ls anc ivi).1).notes
          = some dn ∧
        dn.position = s.commitment_tree.leaves.length + 1) := by
  obtain ⟨h1ok, h1st⟩ := append_commitment_spec s c (Nat.lt_of_succ_lt h)
  have hlen : ((s.append_commitment c).1).commitment_tree.leaves.length
      = s.commitment_tree.leaves.length + 1 := by
    rw [h1st]; simp
  obtain ⟨h2ok, h2st⟩ := append_commitment_spec (s.append_commitment c).1 c (by rw [hlen]; exact h)
  have hmap : mapGet c ((((s.append_commitment c).1).append_commitment c).1).cmx_to_position
      = some (s.commitment_tree.leaves.length + 1) := by
    rw [h2st]
    simp only [hlen]
    exact mapGet_mapInsert_self _ _ _ _
  refine ⟨h1ok, h2ok, hmap, ?_⟩
  intro note nf tx ai ls anc ivi
  obtain ⟨haok, hanotes⟩ := add_note_spec _ note c nf tx ai ls anc ivi _ hmap
  refine ⟨haok,
    ⟨{ note := note, cmx := c, nullifier := nf, amount := note.value,
       ledger_seq := ls, tx_hash := tx, action_idx := ai,
       position := s.commitment_tree.leaves.length + 1, anchor := anc,
       ivk_index := ivi }, ?_, rfl⟩⟩
  rw [hanotes]
  exact mapGet_mapInsert_self _ _ _ _

/-- Witness for `claim_c10`: the double append of commitment 1 on a fresh
wallet records position 1 (the second append's position). -/
theorem claim_c10_witness :
    mapGet 1 ((((OrchardWalletState.new.append_commitment 1).1).append_commitment 1).1).cmx_to_position
      = some 1 :=
  (claim_c10 OrchardWalletState.new 1 (by decide)).2.2.1

/-- On every `Ok` exit of the action loop the staging map of the returned
state is empty. -/
theorem tdAux_ok_clears (td : TryDec) (tx : Bytes32) (ls : Nat) :
    ∀ (bundle : List Action) (s : OrchardWalletState) (idx cnt n : Nat),
      (tdAux td tx ls s idx cnt bundle).2 = Except.ok n →
      (tdAux td tx ls s idx cnt bundle).1.cmx_to_position = []
  | [], _, _, _, _ => fun _ => rfl
  | a :: rest, s, idx, cnt, n => by
    intro h
    unfold tdAux at h ⊢
    split at h
    next hf => exact tdAux_ok_clears td tx ls rest s (idx + 1) cnt n h
    next ivkIdx note hf =>
      split at h
      next hr => exact Except.noConfusion h
      next r hr =>
        split at h
        next s' u heq => exact tdAux_ok_clears td tx ls rest s' (idx + 1) (cnt + 1) n h
        next s' e heq => exact Except.noConfusion h

/-- Claim C1, counterexample: a reachable wallet whose staging map holds
`1 ↦ 0`, processing a bundle whose single action (commitment 2, never
appended) decrypts — `try_decrypt_notes_from_bundle` exits with the
`positionNotFound` error and the staging map still holds its entry: the map
is not cleared on the `Err` exit path. -/
theorem claim_c1_counterexample :
    (c1State.try_decrypt_notes_from_bundle c1TryDec c1Bundle 99 1).2
      = Except.error (WErr.positionNotFound 2) ∧
    (c1State.try_decrypt_notes_from_bundle c1TryDec c1Bundle 99 1).1.cmx_to_position
      = [(1, 0)] := by
  constructor <;> decide

/-- Claim C1, amended: `try_decrypt_notes_from_bundle` leaves the staging
map empty on every `Ok` exit (so no position recorded during one bundle's
append pass is visible while processing a later bundle, provided each bundle
is ingested successfully); on an `Err` exit the map is not cleared and
retains its entries. -/
theorem claim_c1_amended (td : TryDec) (s : OrchardWalletState)
    (bundle : List Action) (tx_hash : Bytes32) (ledger_seq n : Nat) :
    (s.try_decrypt_notes_from_bundle td bundle tx_hash ledger_seq).2 = Except.ok n →
    (s.try_decrypt_notes_from_bundle td bundle tx_hash ledger_seq).1.cmx_to_position = [] :=
  tdAux_ok_clears td tx_hash ledger_seq bundle s 0 0 n

/-- Witness for `claim_c1_amended` at a concrete empty bundle. -/
theorem claim_c1_witness :
    (OrchardWalletState.new.try_decrypt_notes_from_bundle tdNone [] 0 0).1.cmx_to_position = [] :=
  claim_c1_amended tdNone OrchardWalletState.new [] 0 0 0 rfl

/-- Membership in `insertNote x l`: the inserted note or a previous member. -/
theorem mem_insertNote (x : DecryptedNote) :
    ∀ (l : List DecryptedNote) (b : DecryptedNote),
      b ∈ insertNote x l ↔ b = x ∨ b ∈ l
  | [], b => by simp [insertNote]
  | m :: rest, b => by
    unfold insertNote
    by_cases hle : m.amount ≤ x.amount
    · rw [if_pos hle]
      simp [mem_insertNote x rest b]
      tauto
    · rw [if_neg hle]
      simp

/-- `amountKeyLt` implies `amountLe`. -/
theorem amountKeyLt.le {a b : DecryptedNote} (h : amountKeyLt a b) : a.amount ≤ b.amount := by
  rcases h with h | ⟨h, _⟩
  · exact Nat.le_of_lt h
  · exact Nat.le_of_eq h

/-- Inserting `x` into an `amountKeyLt`-sorted list whose members all
precede `x` in key order keeps the list `amountKeyLt`-sorted. -/
theorem insertNote_pairwise (x : DecryptedNote) :
    ∀ acc : List DecryptedNote, List.Pairwise amountKeyLt acc →
      (∀ a ∈ acc, noteKeyLt a x) → List.Pairwise amountKeyLt (insertNote x acc)
  | [], _, _ => List.pairwise_singleton _ _
  | m :: rest, hp, hk => by
    rw [List.pairwise_cons] at hp
    obtain ⟨hm, hrest⟩ := hp
    unfold insertNote
    by_cases hle : m.amount ≤ x.amount
    · rw [if_pos hle]
      rw [List.pairwise_cons]
      constructor
      · intro b hb
        rcases (mem_insertNote x rest b).1 hb with rfl | hbr
        · rcases Nat.lt_or_ge m.amount b.amount with hlt | hge
          · exact Or.inl hlt
          · exact Or.inr ⟨Nat.le_antisymm hle hge, hk m (by simp)⟩
        · exact hm b hbr
      · exact insertNote_pairwise x rest hrest (fun a ha => hk a (by simp [ha]))
    · rw [if_neg hle]
      have hxm : x.amount < m.amount := Nat.lt_of_not_le hle
      rw [List.pairwise_cons]
      constructor
      · intro b hb
        rw [List.mem_cons] at hb
        rcases hb with rfl | hbr
        · exact Or.inl hxm
        · exact Or.inl (Nat.lt_of_lt_of_le hxm ((hm b hbr).le))
      · rw [List.pairwise_cons]
        exact ⟨hm, hrest⟩

/-- The sorting fold keeps the accumulator `amountKeyLt`-sorted when the
input is key-sorted and every accumulated note precedes every pending one in
key order. -/
theorem sortByAmount_foldl_pairwise :
    ∀ (l acc : List DecryptedNote),
      List.Pairwise noteKeyLt l → List.Pairwise amountKeyLt acc →
      (∀ a ∈ acc, ∀ b ∈ l, noteKeyLt a b) →
      List.Pairwise amountKeyLt (List.foldl (fun acc n => insertNote n acc) acc l)
  | [], acc, _, hacc, _ => hacc
  | x :: rest, acc, hl, hacc, hcross => by
    rw [List.pairwise_cons] at hl
    obtain ⟨hx, hrest⟩ := hl
    have hacc' : List.Pairwise amountKeyLt (insertNote x acc) :=
      insertNote_pairwise x acc hacc (fun a ha => hcross a ha x (by simp))
    have hcross' : ∀ a ∈ insertNote x acc, ∀ b ∈ rest, noteKeyLt a b := by
      intro a ha b hb
      rcases (mem_insertNote x acc a).1 ha with rfl | har
      · exact hx b hb
      · exact hcross a har b (by simp [hb])
    exact sortByAmount_foldl_pairwise rest (insertNote x acc) hrest hacc' hcross'

/-- The stable sort of a key-sorted note list is sorted by amount with key
order breaking ties. -/
theorem sortByAmount_pairwise (l : List DecryptedNote)
    (h : List.Pairwise noteKeyLt l) : List.Pairwise amountKeyLt (sortByAmount l) :=
  sortByAmount_foldl_pairwise l [] h List.Pairwise.nil (by simp)

/-- Inserting into an amount-sorted list keeps it amount-sorted. -/
theorem insertNote_pairwise_le (x : DecryptedNote) :
    ∀ acc : List DecryptedNote, List.Pairwise amountLe acc →
      List.Pairwise amountLe (insertNote x acc)
  | [], _ => List.pairwise_singleton _ _
  | m :: rest, hp => by
    rw [List.pairwise_cons] at hp
    obtain ⟨hm, hrest⟩ := hp
    unfold insertNote
    by_cases hle : m.amount ≤ x.amount
    · rw [if_pos hle]
      rw [List.pairwise_cons]
      constructor
      · intro b hb
        rcases (mem_insertNote x rest b).1 hb with rfl | hbr
        · exact hle
        · exact hm b hbr
      · exact insertNote_pairwise_le x rest hrest
    · rw [if_neg hle]
      have hxm : x.amount ≤ m.amount := Nat.le_of_lt (Nat.lt_of_not_le hle)
      rw [List.pairwise_cons]
      constructor
      · intro b hb
        rw [List.mem_cons] at hb
        rcases hb with rfl | hbr
        · exact hxm
        · exact Nat.le_trans hxm (hm b hbr)
      · rw [List.pairwise_cons]
        exact ⟨hm, hrest⟩

/-- The sorting fold keeps the accumulator amount-sorted. -/
theorem sortByAmount_foldl_le :
    ∀ (l acc : List DecryptedNote), List.Pairwise amountLe acc →
      List.Pairwise amountLe (List.foldl (fun acc n => insertNote n acc) acc l)
  | [], _, hacc => hacc
  | x :: rest, acc, hacc =>
    sortByAmount_foldl_le rest (insertNote x acc) (insertNote_pairwise_le x acc hacc)

/-- The stable sort is always sorted ascending by amount. -/
theorem sortByAmount_le (l : List DecryptedNote) :
    List.Pairwise amountLe (sortByAmount l) :=
  sortByAmount_foldl_le l [] List.Pairwise.nil

/-- When the note registry is key-sorted, with each entry keyed by its
note's `(tx_hash, action_idx)` (both invariants of every reachable wallet),
`get_spendable_notes` is sorted by amount with ties in ascending key
order. -/
theorem get_spendable_notes_pairwise (s : OrchardWalletState)
    (hk : List.Pairwise (fun e1 e2 => idLtB e1.1 e2.1 = true) s.notes)
    (hid : ∀ e ∈ s.notes, e.1 = (e.2.tx_hash, e.2.action_idx)) :
    List.Pairwise amountKeyLt s.get_spendable_notes := by
  apply sortByAmount_pairwise
  rw [List.pairwise_map]
  apply List.Pairwise.imp_of_mem ?_
    (hk.filter (fun e => decide (e.1 ∉ s.spent_notes)))
  intro e1 e2 h1 h2 hlt
  have m1 := List.mem_of_mem_filter h1
  have m2 := List.mem_of_mem_filter h2
  unfold noteKeyLt
  rw [← hid e1 m1, ← hid e2 m2]
  exact hlt

/-- Characterization of an `Ok` run of the selection loop: the result
extends the accumulator by the shortest nonempty input segment whose running
total reaches the target (checked after each push, as the loop does). -/
theorem selectGo_ok (target : Nat) :
    ∀ (l acc : List DecryptedNote) (total : Nat) (r : List DecryptedNote),
      selectGo target l acc total = Except.ok r →
      ∃ k, 0 < k ∧ k ≤ l.length ∧ r = acc ++ l.take k ∧
        target ≤ total + sumAmounts (l.take k) ∧
        ∀ j, 0 < j → j < k → total + sumAmounts (l.take j) < target
  | [], _, _, _ => fun h => Except.noConfusion h
  | n :: rest, acc, total, r => by
    intro h
    unfold selectGo at h
    split at h
    next hfits =>
      split at h
      next hreach =>
        refine ⟨1, Nat.one_pos, by simp, ?_, ?_, ?_⟩
        · simpa using (Except.ok.inj h).symm
        · simpa [sumAmounts] using hreach
        · intro j hj0 hjk
          omega
      next hmiss =>
        obtain ⟨k, hk0, hkle, hcat, hsum, hmin⟩ :=
          selectGo_ok target rest (acc ++ [n]) (total + n.amount) r h
        refine ⟨k + 1, Nat.succ_pos k, by simpa using hkle, ?_, ?_, ?_⟩
        · rw [hcat]
          simp
        · have : sumAmounts ((n :: rest).take (k + 1))
              = n.amount + sumAmounts (rest.take k) := by simp [sumAmounts]
          rw [this]
          omega
        · intro j hj0 hjk
          cases j with
          | zero => omega
          | succ jj =>
            have hsj : sumAmounts ((n :: rest).take (jj + 1))
                = n.amount + sumAmounts (rest.take jj) := by simp [sumAmounts]
            rw [hsj]
            cases Nat.eq_zero_or_pos jj with
            | inl hz =>
              subst hz
              simp only [List.take_zero, sumAmounts, List.map_nil, List.sum_nil]
              omega
            | inr hpos =>
              have := hmin jj hpos (by omega)
              omega
    next hover => exact Except.noConfusion h

/-- When the eligible notes sum below the target (and the target is within
the `u64` range, so no overflow can fire first), the selection loop fails
with the insufficient-balance error carrying that sum. -/
theorem selectGo_insufficient (target : Nat) :
    ∀ (l acc : List DecryptedNote) (total : Nat),
      total + sumAmounts l < target → target ≤ u64Size →
      selectGo target l acc total
        = Except.error (WErr.insufficientBalance (total + sumAmounts l) target)
  | [], acc, total => by
    intro h1 h2
    simp [selectGo, sumAmounts]
  | n :: rest, acc, total => by
    intro h1 h2
    have hs : sumAmounts (n :: rest) = n.amount + sumAmounts rest := by
      simp [sumAmounts]
    unfold selectGo
    rw [if_pos (by omega : total + n.amount < u64Size),
        if_neg (by omega : ¬ target ≤ total + n.amount)]
    rw [selectGo_insufficient target rest (acc ++ [n]) (total + n.amount) (by omega) h2]
    congr 2
    omega

/-- Claim C4: `select_notes` sorts the unspent notes ascending by amount,
any `Ok` result is exactly the shortest nonempty prefix of that sorted list
whose running sum reaches the target (every shorter nonempty prefix sums
below it), a total below the target yields the insufficient-balance error
carrying that total, and on unspent amounts [1000, 2000, 3000] a request for
2500 selects the 1000- and 2000-amount notes in that order. -/
theorem claim_c4 (s : OrchardWalletState) (t : Nat) :
    List.Pairwise amountLe s.get_spendable_notes ∧
    (∀ l, s.select_notes t none = Except.ok l →
      ∃ k, 0 < k ∧ l = s.get_spendable_notes.take k ∧ t ≤ sumAmounts l ∧
        ∀ j, 0 < j → j < k → sumAmounts (s.get_spendable_notes.take j) < t) ∧
    (sumAmounts s.get_spendable_notes < t → t ≤ u64Size →
      s.select_notes t none
        = Except.error (WErr.insufficientBalance (sumAmounts s.get_spendable_notes) t)) ∧
    scenC.select_notes 2500 none = Except.ok [scenCNote1, scenCNote2] := by
  refine ⟨sortByAmount_le _, ?_, ?_, by decide⟩
  · intro l hl
    have hl' : selectGo t s.get_spendable_notes [] 0 = Except.ok l := hl
    obtain ⟨k, hk0, hkle, hcat, hsum, hmin⟩ := selectGo_ok t _ [] 0 l hl'
    have hcat' : l = s.get_spendable_notes.take k := by simpa using hcat
    refine ⟨k, hk0, hcat', ?_, ?_⟩
    · rw [hcat']
      omega
    · intro j hj0 hjk
      have := hmin j hj0 hjk
      omega
  · intro hlt hle
    have h := selectGo_insufficient t s.get_spendable_notes [] 0 (by omega) hle
    have h0 : (0 : Nat) + sumAmounts s.get_spendable_notes
        = sumAmounts s.get_spendable_notes := Nat.zero_add _
    rw [h0] at h
    exact h

/-- Witness for `claim_c4`: scenario D — the same three notes cannot cover
10000 (total 6000). -/
theorem claim_c4_witness :
    scenC.select_notes 10000 none
      = Except.error (WErr.insufficientBalance 6000 10000) := by
  have h := (claim_c4 scenC 10000).2.2.1 (by decide) (by decide)
  have e : sumAmounts scenC.get_spendable_notes = 6000 := by decide
  rw [e] at h
  exact h

/-- Claim C5, counterexample: two equal-amount notes inserted in the order
`c5NoteFirst` (tx hash 5) then `c5NoteSecond` (tx hash 3); the selection
returns them in `BTreeMap` key order — `c5NoteSecond` first — not in their
insertion order, refuting the insertion-order tie-break. -/
theorem claim_c5_counterexample :
    sC5.select_notes 200 none = Except.ok [c5NoteSecond, c5NoteFirst] ∧
    sC5.select_notes 200 none ≠ Except.ok [c5NoteFirst, c5NoteSecond] ∧
    c5NoteFirst ≠ c5NoteSecond := by
  refine ⟨by decide, by decide, by decide⟩

/-- Claim C5, amended: `select_notes` is deterministic — identical wallet
state and arguments yield the identical ordered list — and when two unspent
notes have equal amounts their relative order in the result is ascending
note-identity `(tx_hash, action_idx)` order (the note map's key order),
regardless of insertion order.  (The hypotheses — a key-sorted registry
whose entries are keyed by their note's identity — hold for every reachable
wallet.) -/
theorem claim_c5_amended (s : OrchardWalletState) (t : Nat) (f : Option Ivk)
    (hk : List.Pairwise (fun e1 e2 => idLtB e1.1 e2.1 = true) s.notes)
    (hid : ∀ e ∈ s.notes, e.1 = (e.2.tx_hash, e.2.action_idx)) :
    (∀ s' t' f', s = s' → t = t' → f = f' → s.select_notes t f = s'.select_notes t' f') ∧
    List.Pairwise amountKeyLt s.get_spendable_notes ∧
    (∀ l, s.select_notes t f = Except.ok l → List.Pairwise amountKeyLt l) := by
  have hsp := get_spendable_notes_pairwise s hk hid
  refine ⟨?_, hsp, ?_⟩
  · intro s' t' f' h1 h2 h3
    rw [h1, h2, h3]
  · intro l hl
    cases f with
    | none =>
      have hl' : selectGo t s.get_spendable_notes [] 0 = Except.ok l := hl
      obtain ⟨k, _, _, hcat, _, _⟩ := selectGo_ok t _ [] 0 l hl'
      have hcat' : l = s.get_spendable_notes.take k := by simpa using hcat
      rw [hcat']
      exact hsp.sublist (List.take_sublist k _)
    | some ivk =>
      have hl' : (match s.ivks.findIdx? (fun k => decide (k = ivk)) with
          | none => Except.error WErr.fvkNotFound
          | some i =>
            selectGo t (s.get_spendable_notes.filter (fun n => decide (n.ivk_index = i))) [] 0)
          = Except.ok l := hl
      cases hidx : s.ivks.findIdx? (fun k => decide (k = ivk)) with
      | none =>
        rw [hidx] at hl'
        exact Except.noConfusion hl'
      | some i =>
        rw [hidx] at hl'
        obtain ⟨k, _, _, hcat, _, _⟩ := selectGo_ok t _ [] 0 l hl'
        have hcat' : l = (s.get_spendable_notes.filter
            (fun n => decide (n.ivk_index = i))).take k := by simpa using hcat
        rw [hcat']
        exact ((hsp.filter _).sublist (List.take_sublist k _))

/-- Witness for `claim_c5_amended` at the concrete two-note wallet. -/
theorem claim_c5_witness :
    List.Pairwise amountKeyLt sC5.get_spendable_notes :=
  (claim_c5_amended sC5 200 none (by decide) (by decide)).2.1

end PostfiatOrchard
